import Mathlib

/-!
Verification development for the `tacit` backend (FastAPI + SQLite knowledge
base).  The Python sources under `tacit/backend/` are shallowly embedded:

* difflib's `SequenceMatcher.ratio` (used by the similarity fallback, the
  incremental extractor and cross-repo grouping) is ported operation by
  operation over `List Char`; scores are exact rationals (every IEEE double is
  a rational, and for the short strings involved the exact value and the float
  value always fall on the same side of the thresholds 0.65 / 0.7).
* `consensus_confidence` (main.py) is embedded over ℝ, since it applies the
  transcendental `math.log2`.
* the SQLite tables and the CRUD helpers of `database.py` become a `Store`
  record and pure state-passing functions; `datetime('now')` timestamps become
  a monotone counter; AUTOINCREMENT ids start at 1 as in SQLite.
* the endpoint / pipeline logic (`contribute_rules`, `approve_proposal`,
  `incremental_extract`, `_build_modular_rules_fallback`) is translated from
  main.py, proposals.py and pipeline.py.  The opaque reasoning collaborator
  (Claude) is out of scope: flows that consult it are modelled on their
  deterministic fallback path, and the rules an analyzer agent writes are an
  input of the model.
-/

namespace Tacit

/-! ### Python string primitives (ASCII, as exercised by this code base) -/

/-- ASCII lower-casing, as Python `str.lower` acts on ASCII text. -/
def pyLower (c : Char) : Char :=
  if 'A' ≤ c ∧ c ≤ 'Z' then Char.ofNat (c.toNat + 32) else c

/-- ASCII upper-casing, as Python `str.upper` acts on ASCII text. -/
def pyUpper (c : Char) : Char :=
  if 'a' ≤ c ∧ c ≤ 'z' then Char.ofNat (c.toNat - 32) else c

def lowerS (s : String) : List Char := s.toList.map pyLower

def upperS (s : String) : String := String.mk (s.toList.map pyUpper)

/-- `startsW hay needle`: `needle` is a prefix of `hay`. -/
def startsW : List Char → List Char → Bool
  | _, [] => true
  | [], _ :: _ => false
  | c :: hs, n :: ns => c = n && startsW hs ns

/-- `hasSub hay needle`: `needle` occurs contiguously in `hay`
(Python's `needle in hay`). -/
def hasSub : List Char → List Char → Bool
  | [], needle => needle.isEmpty
  | c :: t, needle => startsW (c :: t) needle || hasSub t needle

def hasSubStr (hay needle : String) : Bool := hasSub hay.toList needle.toList

/-- Python `', '.join`. -/
def commaJoin : List String → String
  | [] => ""
  | [x] => x
  | x :: y :: xs => x ++ ", " ++ commaJoin (y :: xs)

/-- Python `'\n'.join`. -/
def nlJoin : List String → String
  | [] => ""
  | [x] => x
  | x :: y :: xs => x ++ "\n" ++ nlJoin (y :: xs)

def isPySpace (c : Char) : Bool :=
  c = ' ' || c = '\t' || c = '\n' || c = '\r' || c = Char.ofNat 11 || c = Char.ofNat 12

/-- Python `str.strip()` (ASCII whitespace). -/
def pyStrip (s : String) : String :=
  String.mk (((s.toList.dropWhile isPySpace).reverse.dropWhile isPySpace).reverse)

/-- Python slicing `s[:n]`. -/
def pyTake (n : Nat) (s : String) : String := String.mk (s.toList.take n)

def pySplitGo (sep : List Char) : Nat → List Char → List Char → List String
  | 0, s, acc => [String.mk (acc.reverse ++ s)]
  | fuel + 1, s, acc =>
    if sep.isEmpty then [String.mk (acc.reverse ++ s)]
    else if startsW s sep then
      String.mk acc.reverse :: pySplitGo sep fuel (s.drop sep.length) []
    else
      match s with
      | [] => [String.mk acc.reverse]
      | c :: t => pySplitGo sep fuel t (c :: acc)

/-- Python `str.split(sep)` for a non-empty separator: `"a,b" → ["a","b"]`,
`"" → [""]`. -/
def pySplit (s sep : String) : List String :=
  pySplitGo sep.toList s.toList.length s.toList []

def pyTitleGo : Bool → List Char → List Char
  | _, [] => []
  | prev, c :: t =>
    let al := c.isAlpha
    (if al then (if prev then pyLower c else pyUpper c) else c) :: pyTitleGo al t

/-- Python `str.title()` on ASCII text: upper-case the first letter of each
alphabetic run, lower-case the rest. -/
def pyTitle (s : String) : String := String.mk (pyTitleGo false s.toList)

/-- Python `str.replace` (all occurrences, left to right, non-overlapping);
the fuel argument bounds the scan by the input length. -/
def replaceL (pat rep : List Char) : Nat → List Char → List Char
  | 0, s => s
  | _ + 1, [] => []
  | fuel + 1, c :: t =>
    if pat.isEmpty then c :: t
    else if startsW (c :: t) pat then rep ++ replaceL pat rep fuel ((c :: t).drop pat.length)
    else c :: replaceL pat rep fuel t

def pyReplace (s pat rep : String) : String :=
  String.mk (replaceL pat.toList rep.toList s.toList.length s.toList)

/-- Python `f"\x7bx:.2f\x7d"` on an exact rational: round `100·q` half-to-even
(IEEE/Python rounding of the exact value) and print two decimals. -/
def fmt2f (q : ℚ) : String :=
  let scaled : Int := q.num * 100
  let den : Int := (q.den : Int)
  let fl : Int := scaled.fdiv den
  let r : Int := scaled - fl * den
  let m : Int := if 2 * r < den then fl else if den < 2 * r then fl + 1
                 else if fl % 2 = 0 then fl else fl + 1
  let k : Nat := m.toNat
  let frac : Nat := k % 100
  (if m < 0 then "-" else "") ++ toString (k / 100) ++ "." ++
    (if frac < 10 then "0" ++ toString frac else toString frac)

/-! ### difflib `SequenceMatcher` (autojunk is inert for the strings here,
all shorter than 200 characters, so the junk set is empty) -/

/-- Indices of `c` in `b`, ascending — difflib's `b2j[c]`. -/
def posIdx (b : List Char) (c : Char) : List Nat :=
  (b.enum.filter (fun p => p.2 = c)).map (fun p => p.1)

def lookupD (l : List (Nat × Nat)) (k : Nat) : Nat :=
  match l.find? (fun p => p.1 = k) with
  | some p => p.2
  | none => 0

structure Best where
  besti : Nat
  bestj : Nat
  bestsize : Nat
deriving DecidableEq

/-- Inner loop of difflib `find_longest_match`: walk the ascending match
positions `js` of `a[i]` in `b` (`continue` below `blo`, `break` at `bhi`),
building `newj2len` and improving the current best on strict increase. -/
def flmInner (j2len : List (Nat × Nat)) (i blo bhi : Nat) :
    List Nat → Best → List (Nat × Nat) → (List (Nat × Nat)) × Best
  | [], best, acc => (acc, best)
  | j :: rest, best, acc =>
    if j < blo then flmInner j2len i blo bhi rest best acc
    else if bhi ≤ j then (acc, best)
    else
      let k := lookupD j2len (j - 1) + 1
      let best' := if k > best.bestsize then Best.mk (i + 1 - k) (j + 1 - k) k else best
      flmInner j2len i blo bhi rest best' ((j, k) :: acc)

def flmOuter (a b : List Char) (blo bhi : Nat) :
    List Nat → List (Nat × Nat) → Best → Best
  | [], _, best => best
  | i :: rest, j2len, best =>
    let s := flmInner j2len i blo bhi (posIdx b (a.getD i ' ')) best []
    flmOuter a b blo bhi rest s.1 s.2

/-- The left extension while-loop of `find_longest_match` (the junk set is
empty, so only the plain extension loops can fire). -/
def extendL (a b : List Char) (alo blo : Nat) : Nat → Nat → Nat → Nat → Nat × Nat × Nat
  | 0, besti, bestj, bestsize => (besti, bestj, bestsize)
  | fuel + 1, besti, bestj, bestsize =>
    if alo < besti ∧ blo < bestj ∧ a.getD (besti - 1) ' ' = b.getD (bestj - 1) ' ' then
      extendL a b alo blo fuel (besti - 1) (bestj - 1) (bestsize + 1)
    else (besti, bestj, bestsize)

/-- The right extension while-loop of `find_longest_match`. -/
def extendR (a b : List Char) (ahi bhi : Nat) : Nat → Nat → Nat → Nat → Nat
  | 0, _, _, bestsize => bestsize
  | fuel + 1, besti, bestj, bestsize =>
    if besti + bestsize < ahi ∧ bestj + bestsize < bhi ∧
        a.getD (besti + bestsize) ' ' = b.getD (bestj + bestsize) ' ' then
      extendR a b ahi bhi fuel besti bestj (bestsize + 1)
    else bestsize

/-- difflib `find_longest_match` on the window `[alo,ahi) × [blo,bhi)`. -/
def findLongestMatch (a b : List Char) (alo ahi blo bhi : Nat) : Nat × Nat × Nat :=
  let core := flmOuter a b blo bhi (List.range' alo (ahi - alo)) [] (Best.mk alo blo 0)
  let ext := extendL a b alo blo core.besti core.besti core.bestj core.bestsize
  (ext.1, ext.2.1, extendR a b ahi bhi ahi ext.1 ext.2.1 ext.2.2)

/-- Total matched size of difflib `get_matching_blocks`: recursively split the
window around each longest match; the fuel bounds the recursion depth by the
total window size, which shrinks strictly at each split. -/
def matchTotal (a b : List Char) : Nat → Nat → Nat → Nat → Nat → Nat
  | 0, _, _, _, _ => 0
  | fuel + 1, alo, ahi, blo, bhi =>
    let ijk := findLongestMatch a b alo ahi blo bhi
    if ijk.2.2 = 0 then 0
    else ijk.2.2 + matchTotal a b fuel alo ijk.1 blo ijk.2.1 +
          matchTotal a b fuel (ijk.1 + ijk.2.2) ahi (ijk.2.1 + ijk.2.2) bhi

/-- difflib `SequenceMatcher.ratio`: `2*M/T` (exact; `mkRat` is exact integer
division in ℚ), and 1.0 on two empty sequences. -/
def smRatioQ (a b : List Char) : ℚ :=
  if a.length + b.length = 0 then 1
  else mkRat (2 * (matchTotal a b (a.length + b.length + 1) 0 a.length 0 b.length))
        (a.length + b.length)

/-- `SequenceMatcher(None, x.lower(), y.lower()).ratio()` — the
case-insensitive character ratio used throughout main.py / pipeline.py. -/
def smRatioStr (x y : String) : ℚ := smRatioQ (lowerS x) (lowerS y)

/-! ### `consensus_confidence` (main.py)

`math.log2` is transcendental, so this one function is embedded over ℝ. -/

/-- main.py `consensus_confidence`: `base + 0.08 * log2(count)`, capped at
0.98; `count <= 1` returns `base` unchanged. -/
noncomputable def consensus_confidence (base : ℝ) (contributor_count : ℕ) : ℝ :=
  if contributor_count ≤ 1 then base
  else min 0.98 (base + 0.08 * Real.logb 2 (contributor_count : ℝ))

/-! ### The SQLite store (database.py)

Confidences and similarity scores are Python floats; every float is an exact
rational, and the store code only copies and compares them, so they are
embedded as ℚ.  `datetime('now')` becomes the monotone counter `now`;
AUTOINCREMENT ids start at 1 (so Python's `if rule.get("id")` is truthy for
every inserted row). -/

structure RepoRow where
  id : Nat
  owner : String
  name : String
  full_name : String
  github_token : String
deriving DecidableEq

structure RuleRow where
  id : Nat
  rule_text : String
  category : String
  confidence : ℚ
  source_type : String
  source_ref : String
  repo_id : Option Nat
  provenance_url : String
  provenance_summary : String
  applicable_paths : String
  feedback_score : Int
  created_at : Nat
deriving DecidableEq

structure ProposalRow where
  id : Nat
  rule_text : String
  category : String
  confidence : ℚ
  source_excerpt : String
  proposed_by : String
  status : String
  feedback : String
  reviewed_by : String
  contributor_count : Nat
  repo_id : Option Nat
  created_at : Nat
deriving DecidableEq

structure ContributionRow where
  id : Nat
  proposal_id : Nat
  contributor_name : String
  original_rule_text : String
  original_confidence : ℚ
  source_excerpt : String
  similarity_score : ℚ
  contributed_at : Nat
deriving DecidableEq

structure TrailRow where
  id : Nat
  rule_id : Nat
  event_type : String
  description : String
  source_ref : String
  timestamp : Nat
deriving DecidableEq

structure Store where
  repos : List RepoRow
  rules : List RuleRow
  proposals : List ProposalRow
  contributions : List ContributionRow
  trail : List TrailRow
  nextRuleId : Nat
  nextProposalId : Nat
  nextContributionId : Nat
  nextTrailId : Nat
  now : Nat
deriving DecidableEq

def emptyStore : Store :=
  ⟨[], [], [], [], [], 1, 1, 1, 1, 0⟩

/-- database.py `insert_rule`: a plain INSERT — no validation of confidence
or rule text happens here or in the schema. -/
def insert_rule (st : Store) (rule_text category : String) (confidence : ℚ)
    (source_type source_ref : String) (repo_id : Option Nat)
    (provenance_url provenance_summary applicable_paths : String) : RuleRow × Store :=
  let r : RuleRow :=
    ⟨st.nextRuleId, rule_text, category, confidence, source_type, source_ref,
      repo_id, provenance_url, provenance_summary, applicable_paths, 0, st.now⟩
  (r, { st with rules := st.rules ++ [r], nextRuleId := st.nextRuleId + 1,
                now := st.now + 1 })

/-- Python truthiness of the optional `category` filter (`if category:`). -/
def catMatch (category : Option String) (c : String) : Bool :=
  match category with
  | none => true
  | some v => if v = "" then true else c == v

/-- SQL `repo_id = ?`, applied only when the parameter `is not None`. -/
def repoMatch (repo_id : Option Nat) (r : Option Nat) : Bool :=
  match repo_id with
  | none => true
  | some v => r == some v

/-- `ORDER BY confidence DESC, created_at DESC` of `list_rules`. -/
def listRulesOrd (a b : RuleRow) : Prop :=
  b.confidence < a.confidence ∨ (a.confidence = b.confidence ∧ b.created_at ≤ a.created_at)

instance : DecidableRel listRulesOrd := fun a b => by
  unfold listRulesOrd; infer_instance

instance : IsTotal RuleRow listRulesOrd := by
  constructor
  intro a b
  unfold listRulesOrd
  rcases lt_trichotomy a.confidence b.confidence with h | h | h
  · exact Or.inr (Or.inl h)
  · rcases le_total a.created_at b.created_at with h2 | h2
    · exact Or.inr (Or.inr ⟨h.symm, h2⟩)
    · exact Or.inl (Or.inr ⟨h, h2⟩)
  · exact Or.inl (Or.inl h)

instance : IsTrans RuleRow listRulesOrd := by
  constructor
  intro a b c hab hbc
  unfold listRulesOrd at *
  rcases hab with h1 | ⟨h1, h1t⟩ <;> rcases hbc with h2 | ⟨h2, h2t⟩
  · exact Or.inl (h2.trans h1)
  · exact Or.inl (h2 ▸ h1)
  · exact Or.inl (h1 ▸ h2)
  · exact Or.inr ⟨h1.trans h2, h2t.trans h1t⟩

/-- `ORDER BY confidence DESC` of `search_rules`. -/
def searchOrd (a b : RuleRow) : Prop := b.confidence ≤ a.confidence

instance : DecidableRel searchOrd := fun a b => by
  unfold searchOrd; infer_instance

instance : IsTotal RuleRow searchOrd :=
  ⟨fun a b => (le_total b.confidence a.confidence).imp id id⟩

instance : IsTrans RuleRow searchOrd :=
  ⟨fun _ _ _ hab hbc => le_trans hbc hab⟩

/-- database.py `list_rules`: optional category / repo filters,
`ORDER BY confidence DESC, created_at DESC`. -/
def list_rules (st : Store) (category : Option String) (repo_id : Option Nat) :
    List RuleRow :=
  List.insertionSort listRulesOrd
    (st.rules.filter (fun r => catMatch category r.category && repoMatch repo_id r.repo_id))

/-- SQLite `rule_text LIKE '%' || q || '%'` for a plain (wildcard-free) query:
case-insensitive (ASCII) substring containment. -/
def likeMatch (q text : String) : Bool :=
  hasSub (lowerS text) (lowerS q)

/-- database.py `search_rules`: substring filter plus the optional filters,
`ORDER BY confidence DESC`. -/
def search_rules (st : Store) (query_text : String) (category : Option String)
    (repo_id : Option Nat) : List RuleRow :=
  List.insertionSort searchOrd
    (st.rules.filter (fun r =>
      likeMatch query_text r.rule_text && catMatch category r.category &&
        repoMatch repo_id r.repo_id))

/-- database.py `delete_rule`: first DELETE the rule's decision-trail rows,
then the rule; returns `rowcount > 0`. -/
def delete_rule (st : Store) (rule_id : Nat) : Bool × Store :=
  (st.rules.any (fun r => r.id == rule_id),
   { st with trail := st.trail.filter (fun e => e.rule_id ≠ rule_id),
             rules := st.rules.filter (fun r => r.id ≠ rule_id) })

/-- database.py `add_trail_entry`. -/
def add_trail_entry (st : Store) (rule_id : Nat) (event_type description source_ref : String) :
    TrailRow × Store :=
  let e : TrailRow := ⟨st.nextTrailId, rule_id, event_type, description, source_ref, st.now⟩
  (e, { st with trail := st.trail ++ [e], nextTrailId := st.nextTrailId + 1,
                now := st.now + 1 })

/-- database.py `create_proposal`: INSERT with the schema defaults
`status='pending'`, `contributor_count=1`, `repo_id=NULL`. -/
def create_proposal (st : Store) (rule_text category : String) (confidence : ℚ)
    (source_excerpt proposed_by : String) : ProposalRow × Store :=
  let p : ProposalRow :=
    ⟨st.nextProposalId, rule_text, category, confidence, source_excerpt, proposed_by,
      "pending", "", "", 1, none, st.now⟩
  (p, { st with proposals := st.proposals ++ [p],
                nextProposalId := st.nextProposalId + 1, now := st.now + 1 })

/-- database.py `get_proposal` (`WHERE id = ?`). -/
def get_proposal (st : Store) (proposal_id : Nat) : Option ProposalRow :=
  st.proposals.find? (fun p => p.id == proposal_id)

/-- database.py `update_proposal`: set status/feedback/reviewed_by, then
re-SELECT the row. -/
def update_proposal (st : Store) (proposal_id : Nat)
    (status feedback reviewed_by : String) : Option ProposalRow × Store :=
  let st' :=
    { st with proposals := st.proposals.map (fun p =>
        if p.id = proposal_id then
          { p with status := status, feedback := feedback, reviewed_by := reviewed_by }
        else p) }
  (get_proposal st' proposal_id, st')

/-- database.py `add_proposal_contribution`. -/
def add_proposal_contribution (st : Store) (proposal_id : Nat)
    (contributor_name original_rule_text : String) (original_confidence : ℚ)
    (source_excerpt : String) (similarity_score : ℚ) : ContributionRow × Store :=
  let c : ContributionRow :=
    ⟨st.nextContributionId, proposal_id, contributor_name, original_rule_text,
      original_confidence, source_excerpt, similarity_score, st.now⟩
  (c, { st with contributions := st.contributions ++ [c],
                nextContributionId := st.nextContributionId + 1, now := st.now + 1 })

/-- database.py `list_proposal_contributions` (`ORDER BY contributed_at ASC`;
rows are appended with a strictly increasing clock, so insertion order is
chronological). -/
def list_proposal_contributions (st : Store) (proposal_id : Nat) : List ContributionRow :=
  st.contributions.filter (fun c => c.proposal_id == proposal_id)

/-- database.py `get_contribution_count`:
`COUNT(DISTINCT contributor_name) WHERE proposal_id = ?`. -/
def get_contribution_count (st : Store) (proposal_id : Nat) : Nat :=
  ((list_proposal_contributions st proposal_id).map (fun c => c.contributor_name)).dedup.length

/-- database.py `update_proposal_confidence`: set confidence and
contributor_count on the row. -/
def update_proposal_confidence (st : Store) (proposal_id : Nat) (confidence : ℚ)
    (contributor_count : Nat) : Store :=
  { st with proposals := st.proposals.map (fun p =>
      if p.id = proposal_id then
        { p with confidence := confidence, contributor_count := contributor_count }
      else p) }

/-- database.py `update_proposal_repo_id`. -/
def update_proposal_repo_id (st : Store) (proposal_id : Nat) (repo_id : Nat) : Store :=
  { st with proposals := st.proposals.map (fun p =>
      if p.id = proposal_id then { p with repo_id := some repo_id } else p) }

/-- `ORDER BY created_at DESC` of `find_similar_pending_proposals`. -/
def pendingOrd (a b : ProposalRow) : Prop := b.created_at ≤ a.created_at

instance : DecidableRel pendingOrd := fun a b => by
  unfold pendingOrd; infer_instance

/-- database.py `find_similar_pending_proposals`: every pending proposal,
newest first. -/
def find_similar_pending_proposals (st : Store) : List ProposalRow :=
  List.insertionSort pendingOrd (st.proposals.filter (fun p => p.status == "pending"))

/-! ### Similarity matcher (main.py) -/

/-- The loop of main.py `_sequencematcher_fallback`: keep the best candidate,
updating only when `score > 0.65 and score > best_score` (0.65 = 13/20). -/
def smFallbackGo (rule_text : String) :
    List ProposalRow → Option ProposalRow × ℚ → Option ProposalRow × ℚ
  | [], acc => acc
  | p :: rest, (best, best_score) =>
    let score := smRatioStr rule_text p.rule_text
    if mkRat 13 20 < score ∧ best_score < score then
      smFallbackGo rule_text rest (some p, score)
    else smFallbackGo rule_text rest (best, best_score)

/-- main.py `_sequencematcher_fallback`: character-level similarity fallback;
starts from `(None, 0.0)`. -/
def sequencematcher_fallback (rule_text : String) (pending_proposals : List ProposalRow) :
    Option ProposalRow × ℚ :=
  smFallbackGo rule_text pending_proposals (none, 0)

/-- main.py `find_semantic_match`: an empty pending list short-circuits to
`(None, 0.0)` before anything else; the Claude path is an out-of-scope
collaborator (disabled key, timeout, error or malformed output all fall back),
so the modelled behaviour is the deterministic fallback. -/
def find_semantic_match (rule_text : String) (pending_proposals : List ProposalRow) :
    Option ProposalRow × ℚ :=
  if pending_proposals.isEmpty then (none, 0)
  else sequencematcher_fallback rule_text pending_proposals

/-! ### Federated contribution endpoint (main.py `contribute_rules`) -/

structure ContribRule where
  rule_text : String
  category : String
  confidence : ℚ
  source_excerpt : String
deriving DecidableEq

structure ContributionPayload where
  contributor_name : String
  rules : List ContribRule
  project_hint : Option String
deriving DecidableEq

/-- main.py `contribute_rules` prologue: resolve `project_hint` → repo id by
`full_name` over the repositories table (`if body.project_hint:` is Python
truthiness, so an empty hint resolves to `None`). -/
def resolveHint (st : Store) (hint : Option String) : Option Nat :=
  match hint with
  | none => none
  | some h =>
    if h = "" then none
    else (st.repos.find? (fun r => r.full_name == h)).map (fun r => r.id)

/-- The `if repo_id: await db.update_proposal_repo_id(...)` steps of
`contribute_rules`. -/
def maybe_update_repo (st : Store) (proposal_id : Nat) (repoId : Option Nat) : Store :=
  match repoId with
  | some rid => update_proposal_repo_id st proposal_id rid
  | none => st

/-- One iteration of the `for rule in body.rules` loop of `contribute_rules`.
The float consensus update is `consensus_confidence` computed in IEEE doubles;
its exact rational value is machine-rounding dependent, so the loop is
parameterized by that function `cc` — no property proved below depends on it. -/
def contribStep (cc : ℚ → Nat → ℚ) (contributor_name : String) (repoId : Option Nat)
    (acc : Store × List ProposalRow) (rule : ContribRule) : Store × List ProposalRow :=
  let st := acc.1
  let pending := acc.2
  match find_semantic_match rule.rule_text pending with
  | (some best_match, best_score) =>
    let st := (add_proposal_contribution st best_match.id contributor_name rule.rule_text
                rule.confidence rule.source_excerpt best_score).2
    let count := get_contribution_count st best_match.id
    let new_confidence := cc best_match.confidence count
    let st := update_proposal_confidence st best_match.id new_confidence count
    let st := maybe_update_repo st best_match.id repoId
    (st, pending)
  | (none, _) =>
    let pr := create_proposal st rule.rule_text rule.category rule.confidence
                rule.source_excerpt contributor_name
    let new_proposal := pr.1
    let st := pr.2
    let st := (add_proposal_contribution st new_proposal.id contributor_name rule.rule_text
                rule.confidence rule.source_excerpt 1).2
    let st := maybe_update_repo st new_proposal.id repoId
    (st, pending ++ [new_proposal])

/-- main.py `contribute_rules` (POST /api/contribute): resolve the hint, fetch
the pending proposals once, then merge or create per incoming rule, appending
newly created proposals to the in-memory pending list. -/
def contribute_rules (cc : ℚ → Nat → ℚ) (st : Store) (body : ContributionPayload) : Store :=
  let repoId := resolveHint st body.project_hint
  let pending := find_similar_pending_proposals st
  (body.rules.foldl (contribStep cc body.contributor_name repoId) (st, pending)).1

/-- Stores reachable from an empty database through the public contribute
endpoint (creating a proposal or merging a federated contribution both happen
inside `contribute_rules`). -/
inductive ContribReach (cc : ℚ → Nat → ℚ) : Store → Prop
  | init : ContribReach cc emptyStore
  | step (st : Store) (body : ContributionPayload) :
      ContribReach cc st → ContribReach cc (contribute_rules cc st body)

/-- The C3 invariant: every proposal's `contributor_count` column equals the
number of distinct contributor identities among its contribution rows. -/
def contributorCountInv (st : Store) : Prop :=
  ∀ p ∈ st.proposals, p.contributor_count = get_contribution_count st p.id

/-- Id freshness of the proposals table (AUTOINCREMENT): every proposal id and
every contribution's foreign key is below the next id to be handed out. -/
def proposalIdsFresh (st : Store) : Prop :=
  (∀ p ∈ st.proposals, p.id < st.nextProposalId) ∧
    (∀ c ∈ st.contributions, c.proposal_id < st.nextProposalId)

/-- Induction invariant for the contribute loop: the count invariant, id
freshness, and every cached pending proposal has an already-allocated id. -/
def contribFoldInv (acc : Store × List ProposalRow) : Prop :=
  contributorCountInv acc.1 ∧ proposalIdsFresh acc.1 ∧
    ∀ p ∈ acc.2, p.id < acc.1.nextProposalId

/-! ### Proposal approval (proposals.py `approve_proposal`) -/

/-- Python `sorted({...})` over the contributor names: distinct names in
ascending order. -/
def pySortedSet (l : List String) : List String :=
  List.insertionSort (· ≤ ·) l.dedup

/-- proposals.py: `sorted({c["contributor_name"] for c in contributions})`. -/
def distinct_contributor_names (st : Store) (proposal_id : Nat) : List String :=
  pySortedSet ((list_proposal_contributions st proposal_id).map (fun c => c.contributor_name))

/-- proposals.py `approve_proposal`: mark approved, promote to a knowledge
rule, and write an "approved" trail entry whose description carries a
consensus clause exactly when more than one distinct contributor exists. -/
def approve_proposal (st : Store) (proposal_id : Nat) (reviewed_by feedback : String) :
    Option ProposalRow × Store :=
  match get_proposal st proposal_id with
  | none => (none, st)
  | some _ =>
    let upd := update_proposal st proposal_id "approved" feedback reviewed_by
    match upd.1 with
    | none => (none, upd.2)
    | some proposal =>
      let st := upd.2
      let contributor_names := distinct_contributor_names st proposal_id
      let contributor_count := contributor_names.length
      let ins := insert_rule st proposal.rule_text proposal.category proposal.confidence
                  "conversation" ("proposal:" ++ toString proposal_id) proposal.repo_id "" "" ""
      let rule := ins.1
      let st := ins.2
      let desc0 := "Promoted from proposal #" ++ toString proposal_id ++ " by " ++ reviewed_by
      let desc := if 1 < contributor_count then
          desc0 ++ " (consensus: " ++ toString contributor_count ++ " contributors — " ++
            commaJoin contributor_names ++ ")"
        else desc0
      let st := (add_trail_entry st rule.id "approved" desc
                  ("proposal:" ++ toString proposal_id)).2
      (some proposal, st)

/-! ### Incremental single-event extraction (pipeline.py `incremental_extract`) -/

/-- The `source_ref` written for incremental events: `pr:{repo}#{pr_number}`. -/
def prSourceRef (repo : String) (pr_number : Nat) : String :=
  "pr:" ++ repo ++ "#" ++ toString pr_number

/-- The auto-approval trail description of `incremental_extract`
(`confidence` rendered as Python `:.2f`). -/
def autoApprovedDesc (pr_number : Nat) (confidence : ℚ) : String :=
  "Auto-approved from incremental extraction of PR #" ++ toString pr_number ++
    " (confidence " ++ fmt2f confidence ++ ")"

/-- The dedup test of `incremental_extract`: fallback similarity above 0.7
(= 7/10) against any pre-existing rule of the repository (the loop breaks at
the first hit; one delete is issued either way, so `any` is equivalent). -/
def is_duplicate (existing_rules : List RuleRow) (r : RuleRow) : Bool :=
  existing_rules.any (fun ex => decide (mkRat 7 10 < smRatioStr r.rule_text ex.rule_text))

/-- One iteration of the `for new_rule in new_rules` loop of
`incremental_extract`; the accumulator carries the store and the
`auto_approved` / `proposals_created` counters (0.85 = 85/100). -/
def incrStep (repo : String) (pr_number : Nat) (existing_rules : List RuleRow)
    (acc : Store × Nat × Nat) (new_rule : RuleRow) : Store × Nat × Nat :=
  let st := acc.1
  let auto := acc.2.1
  let props := acc.2.2
  if is_duplicate existing_rules new_rule then
    ((delete_rule st new_rule.id).2, auto, props)
  else if mkRat 85 100 ≤ new_rule.confidence then
    let st := (add_trail_entry st new_rule.id "auto_approved"
                (autoApprovedDesc pr_number new_rule.confidence)
                (prSourceRef repo pr_number)).2
    (st, auto + 1, props)
  else
    let st := (create_proposal st new_rule.rule_text new_rule.category new_rule.confidence
                ("Incrementally extracted from merged PR #" ++ toString pr_number)
                "webhook").2
    ((delete_rule st new_rule.id).2, auto, props + 1)

/-- pipeline.py `incremental_extract` after the opaque analyzer agent ran:
`existing_rules` is the repository's rule list snapshotted before the agent,
`new_rules` the freshly inserted ones (all present in `st`); returns the final
store plus the summary `(new_rules, new_proposals, total_extracted)`. -/
def incremental_extract (repo : String) (pr_number : Nat)
    (existing_rules new_rules : List RuleRow) (st : Store) : Store × Nat × Nat × Nat :=
  let out := new_rules.foldl (incrStep repo pr_number existing_rules) (st, 0, 0)
  (out.1, out.2.1, out.2.2, new_rules.length)

/-! ### Modular rule emitter (pipeline.py `_build_modular_rules_fallback`) -/

/-- An apostrophe, spelled by code point to keep string literals plain. -/
def apos : Char := Char.ofNat 39

/-- The fixed prohibition markers checked against `text.upper()`. -/
def do_not_keywords : List String :=
  ["NEVER", "DO NOT", String.mk ['D', 'O', 'N', apos, 'T'], "MUST NOT", "FORBIDDEN", "AVOID"]

def hasDoNotKeyword (text : String) : Bool :=
  do_not_keywords.any (fun kw => hasSubStr (upperS text) kw)

/-- The `category_to_file` dict with its `.get(..., general)` default. -/
def category_to_file (category : String) : String :=
  if category = "workflow" then ".claude/rules/workflow.md"
  else if category = "style" then ".claude/rules/code-style.md"
  else if category = "testing" then ".claude/rules/testing.md"
  else if category = "architecture" then ".claude/rules/architecture.md"
  else if category = "security" then ".claude/rules/security.md"
  else if category = "performance" then ".claude/rules/performance.md"
  else if category = "domain" then ".claude/rules/domain.md"
  else if category = "design" then ".claude/rules/design.md"
  else if category = "product" then ".claude/rules/product.md"
  else if category = "general" then ".claude/rules/general.md"
  else ".claude/rules/general.md"

/-- Python insertion-ordered `files.setdefault(key, []).append(v)`. -/
def dictAppend : List (String × List String) → String → String → List (String × List String)
  | [], k, v => [(k, [v])]
  | (k0, vs) :: rest, k, v =>
    if k0 = k then (k0, vs ++ [v]) :: rest else (k0, vs) :: dictAppend rest k v

/-- The file key routing of `_build_modular_rules_fallback` for one rule. -/
def modularFileKey (r : RuleRow) : String :=
  if r.applicable_paths ≠ "" then
    let path_parts := pySplit (pyStrip ((pySplit r.applicable_paths ",").headD "")) "/"
    if 2 ≤ path_parts.length then
      let first := path_parts.headD ""
      let subdir := if first = "src" ∨ first = "lib" then path_parts.getD 1 "" else first
      ".claude/rules/" ++ subdir ++ "/" ++ r.category ++ ".md"
    else category_to_file r.category
  else category_to_file r.category

/-- The classification loop body of `_build_modular_rules_fallback`:
skip low confidence (< 0.6 = 6/10), route prohibition rules to the do-not
list, everything else into the file map. -/
def modularStep (acc : List (String × List String) × List String) (r : RuleRow) :
    List (String × List String) × List String :=
  if r.confidence < mkRat 6 10 then acc
  else if hasDoNotKeyword r.rule_text then
    let provenance := if r.provenance_summary ≠ "" then
        " (" ++ pyTake 100 r.provenance_summary ++ ")"
      else ""
    (acc.1, acc.2 ++ ["- " ++ r.rule_text ++ provenance])
  else
    (dictAppend acc.1 (modularFileKey r) ("- " ++ r.rule_text), acc.2)

/-- `sorted(files.items())`: ascending by file key. -/
def fileKeyOrd (a b : String × List String) : Prop := a.1 ≤ b.1

instance : DecidableRel fileKeyOrd := fun a b => by
  unfold fileKeyOrd; infer_instance

/-- The category-file header+body of `_build_modular_rules_fallback`: the
title comes from the file name, and the header carries only a description —
no `paths:` metadata is ever emitted. -/
def modularFileContent (file_path : String) (rule_lines : List String) : String :=
  "---\ndescription: " ++
    pyTitle (pyReplace (pyReplace ((pySplit file_path "/").getLastD "") ".md" "") "-" " ") ++
    " conventions\n---\n\n" ++ nlJoin rule_lines ++ "\n"

/-- pipeline.py `_build_modular_rules_fallback`: the files map as an
insertion-ordered association list (CLAUDE.md, the do-not file when non-empty,
then the category files sorted by path). -/
def build_modular_rules_fallback (st : Store) (repo_id : Nat) : List (String × String) :=
  let rules := list_rules st none (some repo_id)
  if rules.isEmpty then
    [(".claude/CLAUDE.md", "# CLAUDE.md\n\nNo rules extracted yet.\n")]
  else
    let classified := rules.foldl modularStep ([], [])
    let base := [(".claude/CLAUDE.md",
      "# CLAUDE.md\n\nSee `.claude/rules/` for detailed conventions.\n")]
    let dn := if classified.2.isEmpty then ([] : List (String × String))
      else [(".claude/rules/do-not.md",
        "---\ndescription: Critical anti-patterns — things that WILL cause problems if ignored\n---\n\n"
          ++ nlJoin classified.2 ++ "\n")]
    let cats := (List.insertionSort fileKeyOrd classified.1).map
      (fun kv => (kv.1, modularFileContent kv.1 kv.2))
    base ++ dn ++ cats

/-! ### The Pydantic write model (models.py `KnowledgeRule`) -/

/-- models.py `KnowledgeRule`: `confidence: float = Field(ge=0.0, le=1.0)`;
`rule_text: str` carries no constraint, so the model accepts empty text. -/
def knowledge_rule_model_ok (rule_text : String) (confidence : ℚ) : Prop :=
  0 ≤ confidence ∧ confidence ≤ 1

/-! ### Concrete sample data for witnesses and counterexamples -/

/-- No orphan decision-trail entries: every entry references a rule present in
the store. -/
def no_orphan_trail (st : Store) : Prop :=
  ∀ e ∈ st.trail, ∃ r ∈ st.rules, r.id = e.rule_id

def ruleA : RuleRow :=
  ⟨1, "Use pytest fixtures for database setup", "testing", mkRat 9 10, "pr",
    "octo/hello#1", some 1, "", "", "", 0, 0⟩

def ruleB : RuleRow :=
  ⟨2, "Document public endpoints in the README", "docs", mkRat 4 5, "docs",
    "octo/hello#2", some 1, "", "", "", 0, 1⟩

def trailA : TrailRow := ⟨1, 1, "created", "Extracted from octo/hello#1", "octo/hello#1", 0⟩

def trailB : TrailRow := ⟨2, 2, "created", "Extracted from octo/hello#2", "octo/hello#2", 1⟩

def sampleStoreC5 : Store := ⟨[], [ruleA, ruleB], [], [], [trailA, trailB], 3, 1, 1, 3, 2⟩

def proposalC4a : ProposalRow :=
  ⟨1, "Always review migrations in pairs", "workflow", mkRat 4 5, "", "alice",
    "pending", "", "", 1, none, 0⟩

def contribC4a : ContributionRow :=
  ⟨1, 1, "alice", "Always review migrations in pairs", mkRat 4 5, "", 1, 0⟩

/-- A store with one pending proposal having a single distinct contributor. -/
def sampleStoreC4 : Store := ⟨[], [], [proposalC4a], [contribC4a], [], 1, 2, 2, 1, 1⟩

def proposalC4b : ProposalRow :=
  ⟨1, "Use feature flags for risky changes", "workflow", mkRat 22 25, "", "alice",
    "pending", "", "", 2, none, 0⟩

def contribC4b1 : ContributionRow :=
  ⟨1, 1, "alice", "Use feature flags for risky changes", mkRat 4 5, "", 1, 0⟩

def contribC4b2 : ContributionRow :=
  ⟨2, 1, "bob", "Use feature flags for risky rollouts", mkRat 17 20, "", mkRat 7 10, 1⟩

def contribC4b3 : ContributionRow :=
  ⟨3, 1, "alice", "Feature flags for risky changes", mkRat 4 5, "", mkRat 9 10, 2⟩

/-- A store with one pending proposal having two distinct contributors
(alice contributed twice). -/
def sampleStoreC4b : Store :=
  ⟨[], [], [proposalC4b], [contribC4b1, contribC4b2, contribC4b3], [], 1, 2, 4, 1, 3⟩

/-- The pending candidate of the spec's matching similarity example. -/
def proposalC7a : ProposalRow :=
  ⟨1, "Use async/await for all database operations", "architecture", mkRat 4 5, "",
    "alice", "pending", "", "", 1, none, 0⟩

/-- The pending candidate of the spec's non-matching similarity example. -/
def proposalC7b : ProposalRow :=
  ⟨2, "Deploy with containers", "workflow", mkRat 4 5, "", "bob", "pending", "", "", 1, none, 1⟩

/-- A freshly extracted rule (confidence 0.90) whose row carries the PR's
provenance URL, as the incremental analyzer writes it. -/
def ruleC6 : RuleRow :=
  ⟨1, "Use structured logging in background workers", "style", mkRat 9 10, "pr",
    "octo/hello#5", some 1, "https://github.com/octo/hello/pull/5", "", "", 0, 0⟩

def sampleStoreC6 : Store := ⟨[], [ruleC6], [], [], [], 2, 1, 1, 1, 1⟩

/-- A path-scoped rule above the 0.6 emission threshold. -/
def ruleC8 : RuleRow :=
  ⟨1, "Use dependency injection for services", "style", mkRat 4 5, "pr",
    "octo/hello#3", some 1, "", "", "src/api/*.py", 0, 0⟩

def sampleStoreC8 : Store := ⟨[], [ruleC8], [], [], [], 2, 1, 1, 1, 1⟩

/-! ## Theorems -/

lemma logb_two_two : Real.logb 2 2 = 1 := Real.logb_self_eq_one (by norm_num)

lemma logb_two_four : Real.logb 2 4 = 2 := by
  have h : (4 : ℝ) = (2 : ℝ) ^ (2 : ℕ) := by norm_num
  rw [h, Real.logb_pow, logb_two_two]
  norm_num

lemma logb_two_eight : Real.logb 2 8 = 3 := by
  have h : (8 : ℝ) = (2 : ℝ) ^ (3 : ℕ) := by norm_num
  rw [h, Real.logb_pow, logb_two_two]
  norm_num

/-- C1: `consensus_confidence(c, n)` returns `c` for `n ≤ 1` and
`min(0.98, c + 0.08·log2 n)` for `n > 1`; in particular
`consensus(0.80, 2) ≈ 0.88 (±0.001)`, `consensus(0.80, 4) ≈ 0.96 (±0.001)`
and `consensus(0.90, 8) = 0.98`. -/
theorem c1_consensus_confidence_formula :
    (∀ (base : ℝ) (n : ℕ), n ≤ 1 → consensus_confidence base n = base) ∧
    (∀ (base : ℝ) (n : ℕ), 1 < n →
      consensus_confidence base n = min 0.98 (base + 0.08 * Real.logb 2 (n : ℝ))) ∧
    |consensus_confidence 0.80 2 - 0.88| ≤ 0.001 ∧
    |consensus_confidence 0.80 4 - 0.96| ≤ 0.001 ∧
    consensus_confidence 0.90 8 = 0.98 := by
  refine ⟨fun base n hn => if_pos hn, fun base n hn => if_neg (by omega), ?_, ?_, ?_⟩
  · rw [consensus_confidence, if_neg (by norm_num)]
    norm_num [logb_two_two]
  · rw [consensus_confidence, if_neg (by norm_num)]
    norm_num [logb_two_four]
  · rw [consensus_confidence, if_neg (by norm_num)]
    norm_num [logb_two_eight]

/-- C1 witness: the two conditional clauses of the theorem evaluated at
concrete inputs `(0.75, 1)` and `(0.75, 2)`. -/
theorem c1_consensus_confidence_formula_witness :
    consensus_confidence 0.75 1 = 0.75 ∧
    consensus_confidence 0.75 2 = min 0.98 (0.75 + 0.08 * Real.logb 2 ((2 : ℕ) : ℝ)) :=
  ⟨c1_consensus_confidence_formula.1 0.75 1 (by norm_num),
   c1_consensus_confidence_formula.2.1 0.75 2 (by norm_num)⟩

/-- C2 counterexample: at `c = 1 ∈ [0,1]` the code returns
`consensus_confidence 1 1 = 1 > 0.98`, and the value then *drops* from
`n = 1` to `n = 2`, so the claim's bound and monotonicity both fail at this
input (the `n ≤ 1` branch returns the base unchanged, uncapped). -/
theorem c2_consensus_bound_counterexample :
    (0 : ℝ) ≤ 1 ∧ (1 : ℝ) ≤ 1 ∧
    ¬ consensus_confidence 1 1 ≤ 0.98 ∧
    consensus_confidence 1 2 < consensus_confidence 1 1 := by
  refine ⟨by norm_num, le_refl _, ?_, ?_⟩
  · unfold consensus_confidence
    norm_num
  · unfold consensus_confidence
    norm_num [logb_two_two]

/-- C2 amended: restricting the base to `c ∈ [0, 0.98]` (instead of `[0,1]`,
which the counterexample refutes), `consensus_confidence c n` is
non-decreasing in `n ≥ 1`, bounded by 0.98, and `consensus_confidence c 1 = c`
exactly. -/
theorem c2_consensus_monotone_amended :
    ∀ c : ℝ, 0 ≤ c → c ≤ 0.98 →
      (∀ n m : ℕ, 1 ≤ n → n ≤ m →
        consensus_confidence c n ≤ consensus_confidence c m) ∧
      (∀ n : ℕ, 1 ≤ n → consensus_confidence c n ≤ 0.98) ∧
      consensus_confidence c 1 = c := by
  intro c _ hc
  refine ⟨?_, ?_, if_pos (le_refl 1)⟩
  · intro n m _ hnm
    unfold consensus_confidence
    split_ifs with h1 h2 h2
    · exact le_refl c
    · refine le_min hc ?_
      have h0 : (0 : ℝ) ≤ 0.08 * Real.logb 2 (m : ℝ) := by
        apply mul_nonneg (by norm_num)
        apply Real.logb_nonneg (by norm_num)
        have hm : 1 ≤ m := by omega
        exact_mod_cast hm
      linarith
    · omega
    · apply min_le_min le_rfl
      have hl : Real.logb 2 (n : ℝ) ≤ Real.logb 2 (m : ℝ) := by
        apply Real.logb_le_logb_of_le (by norm_num)
        · have hn0 : 0 < n := by omega
          exact_mod_cast hn0
        · exact_mod_cast hnm
      nlinarith
  · intro n _
    unfold consensus_confidence
    split_ifs with h1
    · exact hc
    · exact min_le_left _ _

/-- C2 witness: the amended theorem applied at `c = 0.8`, `n = 1`, `m = 2`. -/
theorem c2_consensus_monotone_amended_witness :
    consensus_confidence 0.8 1 ≤ consensus_confidence 0.8 2 ∧
    consensus_confidence 0.8 2 ≤ 0.98 ∧
    consensus_confidence 0.8 1 = 0.8 := by
  have h := c2_consensus_monotone_amended 0.8 (by norm_num) (by norm_num)
  exact ⟨h.1 1 2 (le_refl 1) (by norm_num), h.2.1 2 (by norm_num), h.2.2⟩

/-- C5: `delete_rule` first deletes every decision-trail entry referencing the
rule, then the rule itself; so no trail entry of the deleted rule survives,
and a store without orphan trail entries stays orphan-free after any
deletion. -/
theorem c5_delete_rule_cascades_trail :
    ∀ (st : Store) (rule_id : Nat), no_orphan_trail st →
      (∀ e ∈ (delete_rule st rule_id).2.trail, e.rule_id ≠ rule_id) ∧
      no_orphan_trail (delete_rule st rule_id).2 := by
  intro st rid h
  refine ⟨fun e he => ?_, fun e he => ?_⟩
  · have hm := List.mem_filter.mp he
    simpa using hm.2
  · have hm := List.mem_filter.mp he
    obtain ⟨r, hr, hid⟩ := h e hm.1
    have hne : e.rule_id ≠ rid := by simpa using hm.2
    refine ⟨r, List.mem_filter.mpr ⟨hr, ?_⟩, hid⟩
    simp [hid, hne]

/-- C5 witness: deleting rule 1 from a two-rule store with one trail entry per
rule leaves no entry for rule 1 and no orphan entries. -/
theorem c5_delete_rule_cascades_trail_witness :
    (∀ e ∈ (delete_rule sampleStoreC5 1).2.trail, e.rule_id ≠ 1) ∧
    no_orphan_trail (delete_rule sampleStoreC5 1).2 :=
  c5_delete_rule_cascades_trail sampleStoreC5 1 (by unfold no_orphan_trail; decide)

/-- C9 counterexample: `insert_rule` performs no validation — a rule with
empty text and confidence 3/2 ∉ [0,1] is persisted as-is, refuting the
claim that such writes are rejected before anything is persisted. -/
theorem c9_write_validation_counterexample :
    ∃ r ∈ (insert_rule emptyStore "" "general" (mkRat 3 2) "pr" "ref" none "" "" "").2.rules,
      r.rule_text = "" ∧ r.confidence = mkRat 3 2 ∧
      ¬ (0 ≤ r.confidence ∧ r.confidence ≤ 1) := by
  decide

/-- C9 amended: nothing is validated at the persistence write boundary —
`insert_rule` unconditionally appends the row it is given.  The only
confidence validation in the code base is the Pydantic `KnowledgeRule` API
model, which rejects confidence outside [0,1] but accepts empty rule text, and
is not consulted by the rule-insertion paths. -/
theorem c9_write_validation_amended :
    (∀ (st : Store) (rule_text category : String) (confidence : ℚ)
        (source_type source_ref : String) (repo_id : Option Nat)
        (provenance_url provenance_summary applicable_paths : String),
      (insert_rule st rule_text category confidence source_type source_ref repo_id
          provenance_url provenance_summary applicable_paths).2.rules =
        st.rules ++
          [⟨st.nextRuleId, rule_text, category, confidence, source_type, source_ref,
            repo_id, provenance_url, provenance_summary, applicable_paths, 0, st.now⟩]) ∧
    ¬ knowledge_rule_model_ok "some rule" (mkRat 3 2) ∧
    knowledge_rule_model_ok "" (mkRat 1 2) := by
  refine ⟨fun st rt c cf sty sr ri pu ps ap => rfl, ?_, ?_⟩
  · unfold knowledge_rule_model_ok
    decide
  · unfold knowledge_rule_model_ok
    decide

/-! ### Substring occurrence lemmas for `hasSub` -/

lemma startsW_self : ∀ s : List Char, startsW s s = true
  | [] => rfl
  | c :: t => by simp [startsW, startsW_self t]

lemma hasSub_nil : ∀ s : List Char, hasSub s [] = true
  | [] => rfl
  | _ :: _ => by simp [hasSub, startsW]

lemma hasSub_of_startsW : ∀ s n : List Char, startsW s n = true → hasSub s n = true
  | s, [], _ => hasSub_nil s
  | [], _ :: _, h => by simp [startsW] at h
  | c :: t, n :: ns, h => by simp [hasSub, h]

lemma hasSub_self (s : List Char) : hasSub s s = true :=
  hasSub_of_startsW s s (startsW_self s)

lemma startsW_nil_needle : ∀ s : List Char, startsW s [] = true
  | [] => rfl
  | _ :: _ => rfl

lemma startsW_append : ∀ s n b : List Char, startsW s n = true → startsW (s ++ b) n = true
  | s, [], b, _ => startsW_nil_needle (s ++ b)
  | [], _ :: _, _, h => by simp [startsW] at h
  | c :: t, n :: ns, b, h => by
    simp only [startsW, Bool.and_eq_true, decide_eq_true_eq] at h
    simp only [List.cons_append, startsW, Bool.and_eq_true, decide_eq_true_eq]
    exact ⟨h.1, startsW_append t ns b h.2⟩

lemma hasSub_append_left : ∀ a b n : List Char, hasSub a n = true → hasSub (a ++ b) n = true
  | [], b, n, h => by
    have hn : n = [] := by
      cases n with
      | nil => rfl
      | cons x xs => simp [hasSub] at h
    subst hn
    simpa using hasSub_nil b
  | c :: t, b, n, h => by
    simp only [hasSub, Bool.or_eq_true] at h
    rcases h with h | h
    · simp only [List.cons_append, hasSub, Bool.or_eq_true]
      exact Or.inl (by simpa using startsW_append (c :: t) n b h)
    · simp only [List.cons_append, hasSub, Bool.or_eq_true]
      exact Or.inr (hasSub_append_left t b n h)

lemma hasSub_append_right : ∀ a b n : List Char, hasSub b n = true → hasSub (a ++ b) n = true
  | [], _, _, h => h
  | c :: t, b, n, h => by
    simp only [List.cons_append, hasSub, Bool.or_eq_true]
    exact Or.inr (hasSub_append_right t b n h)

lemma toList_append (a b : String) : (a ++ b).toList = a.toList ++ b.toList := by
  simp [String.toList, String.data_append]

lemma hasSubStr_append_left (a b n : String) (h : hasSubStr a n = true) :
    hasSubStr (a ++ b) n = true := by
  unfold hasSubStr at *
  rw [toList_append]
  exact hasSub_append_left _ _ _ h

lemma hasSubStr_append_right (a b n : String) (h : hasSubStr b n = true) :
    hasSubStr (a ++ b) n = true := by
  unfold hasSubStr at *
  rw [toList_append]
  exact hasSub_append_right _ _ _ h

lemma hasSubStr_self (s : String) : hasSubStr s s = true := hasSub_self s.toList

lemma commaJoin_mem : ∀ (nm : String) (l : List String), nm ∈ l →
    hasSubStr (commaJoin l) nm = true
  | nm, [x], h => by
    have : nm = x := by simpa using h
    subst this
    exact hasSubStr_self nm
  | nm, x :: y :: xs, h => by
    rcases List.mem_cons.mp h with h | h
    · subst h
      show hasSubStr (nm ++ ", " ++ commaJoin (y :: xs)) nm = true
      exact hasSubStr_append_left _ _ _ (hasSubStr_append_left _ _ _ (hasSubStr_self nm))
    · show hasSubStr (x ++ ", " ++ commaJoin (y :: xs)) nm = true
      exact hasSubStr_append_right _ _ _ (commaJoin_mem nm (y :: xs) h)

/-! ### C10: listing and search ordering -/

/-- C10: for every filter combination, `list_rules` returns exactly the
matching rules sorted by non-increasing confidence with ties broken by newest
`created_at` first, and `search_rules` returns exactly the matching rules
sorted by non-increasing confidence. -/
theorem c10_rule_listing_sorted :
    ∀ (st : Store) (category : Option String) (repo_id : Option Nat) (query_text : String),
      ((list_rules st category repo_id).Perm
          (st.rules.filter (fun r => catMatch category r.category &&
            repoMatch repo_id r.repo_id)) ∧
        (list_rules st category repo_id).Pairwise
          (fun a b => b.confidence ≤ a.confidence ∧
            (a.confidence = b.confidence → b.created_at ≤ a.created_at))) ∧
      ((search_rules st query_text category repo_id).Perm
          (st.rules.filter (fun r => likeMatch query_text r.rule_text &&
            catMatch category r.category && repoMatch repo_id r.repo_id)) ∧
        (search_rules st query_text category repo_id).Pairwise
          (fun a b => b.confidence ≤ a.confidence)) := by
  intro st category repo_id q
  refine ⟨⟨List.perm_insertionSort _ _, ?_⟩, ⟨List.perm_insertionSort _ _, ?_⟩⟩
  · have hs := List.sorted_insertionSort listRulesOrd
      (st.rules.filter (fun r => catMatch category r.category && repoMatch repo_id r.repo_id))
    refine hs.imp ?_
    intro a b hab
    rcases hab with h | ⟨h1, h2⟩
    · exact ⟨le_of_lt h, fun he => absurd (he ▸ h) (lt_irrefl _)⟩
    · exact ⟨le_of_eq h1.symm, fun _ => h2⟩
  · have hs := List.sorted_insertionSort searchOrd
      (st.rules.filter (fun r => likeMatch q r.rule_text &&
        catMatch category r.category && repoMatch repo_id r.repo_id))
    exact hs.imp (fun h => h)

/-! ### C4: approval trail descriptions -/

lemma find?_map_preserving {α β : Type} (f : α → β) (p : β → Bool) (q : α → Bool)
    (l : List α) (hpq : ∀ x, p (f x) = q x) :
    (l.map f).find? p = (l.find? q).map f := by
  induction l with
  | nil => rfl
  | cons x xs ih =>
    simp only [List.map_cons, List.find?]
    rw [hpq x]
    cases hq : q x
    · simpa [hq] using ih
    · simp [hq]

/-- `update_proposal` keeps every id, so re-selecting the updated row finds
the image of the originally found row. -/
lemma get_proposal_update (st : Store) (pid : Nat) (s f rb : String) (p : ProposalRow)
    (hp : get_proposal st pid = some p) :
    (update_proposal st pid s f rb).1 =
      some (if p.id = pid then { p with status := s, feedback := f, reviewed_by := rb }
            else p) := by
  unfold update_proposal get_proposal at *
  simp only
  rw [find?_map_preserving _ _ (fun q => q.id == pid) _ ?_]
  · rw [hp]
    rfl
  · intro x
    by_cases hx : x.id = pid <;> simp [hx]

/-- C4 counterexample: approving a proposal with exactly one distinct
contributor, with the reviewer identity `"consensus-bot"`, writes a trail
description that does contain `"consensus"`, refuting the claim's "never". -/
theorem c4_single_contributor_counterexample :
    (distinct_contributor_names sampleStoreC4 1).length = 1 ∧
    ∃ e ∈ (approve_proposal sampleStoreC4 1 "consensus-bot" "").2.trail,
      e.event_type = "approved" ∧ hasSubStr e.description "consensus" = true := by
  decide

/-- C4 amended: approving an existing proposal appends one "approved" trail
entry; when the contributions carry more than one distinct contributor
identity its description contains "consensus" and every distinct contributor
name, and with at most one distinct contributor the description is exactly
`Promoted from proposal #<id> by <reviewer>` — so it contains "consensus" only
if the reviewer identity happens to (e.g. reviewer "consensus-bot"). -/
theorem c4_approval_trail_amended :
    ∀ (st : Store) (pid : Nat) (rb fb : String),
      get_proposal st pid ≠ none →
      ∃ e : TrailRow,
        (approve_proposal st pid rb fb).2.trail = st.trail ++ [e] ∧
        e.event_type = "approved" ∧
        (1 < (distinct_contributor_names st pid).length →
          hasSubStr e.description "consensus" = true ∧
          ∀ nm ∈ distinct_contributor_names st pid, hasSubStr e.description nm = true) ∧
        ((distinct_contributor_names st pid).length ≤ 1 →
          e.description = "Promoted from proposal #" ++ toString pid ++ " by " ++ rb) := by
  intro st pid rb fb hne
  obtain ⟨p, hp⟩ := Option.ne_none_iff_exists'.mp hne
  have hupd := get_proposal_update st pid "approved" fb rb p hp
  unfold approve_proposal
  rw [hp]
  dsimp only
  rw [hupd]
  dsimp only
  refine ⟨_, rfl, rfl, ?_, ?_⟩
  · intro hlen
    have hlen2 : 1 < (distinct_contributor_names
        (update_proposal st pid "approved" fb rb).2 pid).length := hlen
    rw [if_pos hlen2]
    constructor
    · apply hasSubStr_append_left
      apply hasSubStr_append_left
      apply hasSubStr_append_left
      apply hasSubStr_append_left
      apply hasSubStr_append_right
      decide
    · intro nm hnm
      apply hasSubStr_append_left
      apply hasSubStr_append_right
      exact commaJoin_mem nm _ hnm
  · intro hlen
    have hlen2 : ¬ 1 < (distinct_contributor_names
        (update_proposal st pid "approved" fb rb).2 pid).length := by
      have h1 : (distinct_contributor_names
          (update_proposal st pid "approved" fb rb).2 pid).length ≤ 1 := hlen
      omega
    rw [if_neg hlen2]

/-- C4 witness: the amended theorem applied to a store whose proposal has the
two distinct contributors alice and bob (alice contributed twice), approved by
reviewer dana. -/
theorem c4_approval_trail_amended_witness :
    ∃ e : TrailRow,
      (approve_proposal sampleStoreC4b 1 "dana" "").2.trail = sampleStoreC4b.trail ++ [e] ∧
      e.event_type = "approved" ∧
      (1 < (distinct_contributor_names sampleStoreC4b 1).length →
        hasSubStr e.description "consensus" = true ∧
        ∀ nm ∈ distinct_contributor_names sampleStoreC4b 1,
          hasSubStr e.description nm = true) ∧
      ((distinct_contributor_names sampleStoreC4b 1).length ≤ 1 →
        e.description = "Promoted from proposal #" ++ toString 1 ++ " by " ++ "dana") :=
  c4_approval_trail_amended sampleStoreC4b 1 "dana" "" (by decide)

/-! ### C7: the similarity fallback loop -/

/-- Invariants of the `_sequencematcher_fallback` loop, by induction over the
remaining candidates for an arbitrary accumulator: the score never decreases,
the final accumulator is either untouched or holds some candidate scored above
the 0.65 threshold, and the final score dominates every candidate that cleared
the threshold. -/
lemma smFallbackGo_spec (t : String) : ∀ (rest : List ProposalRow)
    (best : Option ProposalRow) (bscore : ℚ),
    bscore ≤ (smFallbackGo t rest (best, bscore)).2 ∧
    (((smFallbackGo t rest (best, bscore)).1 = best ∧
        (smFallbackGo t rest (best, bscore)).2 = bscore) ∨
      ∃ c ∈ rest, (smFallbackGo t rest (best, bscore)).1 = some c ∧
        (smFallbackGo t rest (best, bscore)).2 = smRatioStr t c.rule_text ∧
        mkRat 13 20 < (smFallbackGo t rest (best, bscore)).2) ∧
    (∀ c ∈ rest, mkRat 13 20 < smRatioStr t c.rule_text →
      smRatioStr t c.rule_text ≤ (smFallbackGo t rest (best, bscore)).2) := by
  intro rest
  induction rest with
  | nil =>
    intro best bscore
    exact ⟨le_refl _, Or.inl ⟨rfl, rfl⟩, by simp⟩
  | cons p rest ih =>
    intro best bscore
    by_cases hc : mkRat 13 20 < smRatioStr t p.rule_text ∧ bscore < smRatioStr t p.rule_text
    · have hgo : smFallbackGo t (p :: rest) (best, bscore) =
          smFallbackGo t rest (some p, smRatioStr t p.rule_text) := by
        simp only [smFallbackGo]
        rw [if_pos hc]
      rw [hgo]
      obtain ⟨ih1, ih2, ih3⟩ := ih (some p) (smRatioStr t p.rule_text)
      refine ⟨le_trans (le_of_lt hc.2) ih1, ?_, ?_⟩
      · rcases ih2 with ⟨h1, h2⟩ | ⟨c, hcm, h1, h2, h3⟩
        · refine Or.inr ⟨p, List.mem_cons_self p rest, h1, h2, ?_⟩
          rw [h2]
          exact hc.1
        · exact Or.inr ⟨c, List.mem_cons_of_mem p hcm, h1, h2, h3⟩
      · intro c hcm hth
        rcases List.mem_cons.mp hcm with h | h
        · exact h ▸ ih1
        · exact ih3 c h hth
    · have hgo : smFallbackGo t (p :: rest) (best, bscore) =
          smFallbackGo t rest (best, bscore) := by
        simp only [smFallbackGo]
        rw [if_neg hc]
      rw [hgo]
      obtain ⟨ih1, ih2, ih3⟩ := ih best bscore
      refine ⟨ih1, ?_, ?_⟩
      · rcases ih2 with h | ⟨c, hcm, hrest⟩
        · exact Or.inl h
        · exact Or.inr ⟨c, List.mem_cons_of_mem p hcm, hrest⟩
      · intro c hcm hth
        rcases List.mem_cons.mp hcm with h | h
        · subst h
          have hns : ¬ bscore < smRatioStr t c.rule_text := fun hlt => hc ⟨hth, hlt⟩
          exact le_trans (not_lt.mp hns) ih1
        · exact ih3 c h hth

set_option maxRecDepth 200000 in
/-- C7: the matcher returns no match with score 0 on an empty candidate list;
on the deterministic fallback path a returned match is a candidate scored by
the case-insensitive `SequenceMatcher` ratio, strictly above 0.65 (= 13/20)
and maximal among all candidates; no match is returned iff every candidate is
at or below 0.65; and the spec's two concrete pairs match / do not match. -/
theorem c7_similarity_fallback :
    (∀ rule_text : String, find_semantic_match rule_text [] = (none, 0)) ∧
    (∀ (rule_text : String) (pending : List ProposalRow) (best : ProposalRow) (score : ℚ),
      sequencematcher_fallback rule_text pending = (some best, score) →
        best ∈ pending ∧ score = smRatioStr rule_text best.rule_text ∧
        mkRat 13 20 < score ∧
        ∀ c ∈ pending, smRatioStr rule_text c.rule_text ≤ score) ∧
    (∀ (rule_text : String) (pending : List ProposalRow),
      (sequencematcher_fallback rule_text pending).1 = none ↔
        ∀ c ∈ pending, smRatioStr rule_text c.rule_text ≤ mkRat 13 20) ∧
    ((sequencematcher_fallback "Always use async/await for database operations"
        [proposalC7a]).1 = some proposalC7a ∧
      mkRat 13 20 < (sequencematcher_fallback "Always use async/await for database operations"
        [proposalC7a]).2) ∧
    sequencematcher_fallback "Use tabs" [proposalC7b] = (none, 0) := by
  refine ⟨fun _ => rfl, ?_, ?_, ?_, ?_⟩
  · intro t pending best score heq
    have heq2 : smFallbackGo t pending (none, 0) = (some best, score) := heq
    obtain ⟨h1, h2, h3⟩ := smFallbackGo_spec t pending none 0
    rw [heq2] at h1 h2 h3
    rcases h2 with ⟨hnone, _⟩ | ⟨c, hcm, hsome, hsc, hth⟩
    · exact absurd hnone (by simp)
    · have hcb : best = c := by simpa using hsome
      subst hcb
      refine ⟨hcm, hsc, hth, ?_⟩
      intro c2 hc2
      by_cases hth2 : mkRat 13 20 < smRatioStr t c2.rule_text
      · exact h3 c2 hc2 hth2
      · exact le_trans (not_lt.mp hth2) (le_of_lt hth)
  · intro t pending
    obtain ⟨h1, h2, h3⟩ := smFallbackGo_spec t pending none 0
    constructor
    · intro hnone c hcm
      have hnone2 : (smFallbackGo t pending (none, 0)).1 = none := hnone
      by_contra hth
      have hth2 := h3 c hcm (not_le.mp hth)
      rcases h2 with ⟨_, hz⟩ | ⟨c2, _, hsome, _, _⟩
      · rw [hz] at hth2
        have hlt : mkRat 13 20 < (0 : ℚ) := lt_of_lt_of_le (not_le.mp hth) hth2
        exact absurd hlt (by decide)
      · rw [hnone2] at hsome
        exact Option.noConfusion hsome
    · intro hall
      show (smFallbackGo t pending (none, 0)).1 = none
      rcases h2 with ⟨hb, _⟩ | ⟨c2, hcm2, _, hsc2, hth2⟩
      · exact hb
      · have hgt : mkRat 13 20 < smRatioStr t c2.rule_text := by
          rw [← hsc2]
          exact hth2
        exact absurd (lt_of_lt_of_le hgt (hall c2 hcm2)) (lt_irrefl _)
  · constructor
    · decide
    · decide
  · decide

set_option maxRecDepth 200000 in
/-- C7 witness: the fallback-path clause applied to the concrete matching
pair, whose exact ratio is 78/89 ≈ 0.876. -/
theorem c7_similarity_fallback_witness :
    proposalC7a ∈ [proposalC7a] ∧
    mkRat 78 89 = smRatioStr "Always use async/await for database operations"
      proposalC7a.rule_text ∧
    mkRat 13 20 < mkRat 78 89 ∧
    ∀ c ∈ [proposalC7a],
      smRatioStr "Always use async/await for database operations" c.rule_text ≤ mkRat 78 89 :=
  c7_similarity_fallback.2.1 "Always use async/await for database operations"
    [proposalC7a] proposalC7a (mkRat 78 89) (by decide)

/-! ### C3: the contributor-count invariant of the contribute endpoint -/

lemma find_semantic_match_mem (t : String) (pending : List ProposalRow)
    (best : ProposalRow) (score : ℚ)
    (h : find_semantic_match t pending = (some best, score)) : best ∈ pending := by
  unfold find_semantic_match at h
  by_cases hp : pending.isEmpty
  · rw [if_pos hp] at h
    exact absurd (congrArg Prod.fst h) (by simp)
  · rw [if_neg hp] at h
    have h2 : smFallbackGo t pending (none, 0) = (some best, score) := h
    obtain ⟨_, hspec, _⟩ := smFallbackGo_spec t pending none 0
    rw [h2] at hspec
    rcases hspec with ⟨hn, _⟩ | ⟨c, hcm, hsome, _, _⟩
    · exact absurd hn (by simp)
    · have hbc : best = c := by simpa using hsome
      rw [hbc]
      exact hcm

lemma find_similar_pending_mem (st : Store) (p : ProposalRow)
    (h : p ∈ find_similar_pending_proposals st) : p ∈ st.proposals := by
  unfold find_similar_pending_proposals at h
  exact (List.mem_filter.mp ((List.perm_insertionSort pendingOrd _).subset h)).1

/-- Adding a contribution for one proposal leaves every other proposal's
distinct-contributor count unchanged. -/
lemma get_contribution_count_add_ne (st : Store) (pid q : Nat)
    (name text excerpt : String) (conf score : ℚ) (hne : pid ≠ q) :
    get_contribution_count
        (add_proposal_contribution st pid name text conf excerpt score).2 q =
      get_contribution_count st q := by
  unfold get_contribution_count list_proposal_contributions add_proposal_contribution
  simp only [List.filter_append, List.filter_cons, List.filter_nil]
  have hb : ((⟨st.nextContributionId, pid, name, text, conf, excerpt, score,
      st.now⟩ : ContributionRow).proposal_id == q) = false := by
    simpa using hne
  rw [hb]
  simp

/-- Contributions referencing only already-allocated proposal ids contribute
nothing to the count of the to-be-allocated id. -/
lemma get_contribution_count_fresh (st : Store)
    (hf : ∀ c ∈ st.contributions, c.proposal_id < st.nextProposalId) :
    get_contribution_count st st.nextProposalId = 0 := by
  unfold get_contribution_count list_proposal_contributions
  have hnil : st.contributions.filter
      (fun c => c.proposal_id == st.nextProposalId) = [] := by
    rw [List.filter_eq_nil_iff]
    intro c hc
    have := hf c hc
    simp only [beq_iff_eq]
    omega
  rw [hnil]
  rfl

/-- One distinct name after adding the first contribution of a freshly
allocated proposal id. -/
lemma get_contribution_count_add_self (st : Store) (pid : Nat)
    (name text excerpt : String) (conf score : ℚ)
    (hempty : st.contributions.filter (fun c => c.proposal_id == pid) = []) :
    get_contribution_count
      (add_proposal_contribution st pid name text conf excerpt score).2 pid = 1 := by
  unfold get_contribution_count list_proposal_contributions add_proposal_contribution
  simp [List.filter_append, hempty]

/-- `maybe_update_repo` only touches `repo_id` fields: membership in its
proposals traces back to a row with the same id and contributor count. -/
lemma maybe_update_repo_mem (st : Store) (pid : Nat) (repoId : Option Nat)
    (p : ProposalRow) (hp : p ∈ (maybe_update_repo st pid repoId).proposals) :
    ∃ q ∈ st.proposals, p.id = q.id ∧ p.contributor_count = q.contributor_count := by
  cases repoId with
  | none => exact ⟨p, hp, rfl, rfl⟩
  | some rid =>
    unfold maybe_update_repo update_proposal_repo_id at hp
    simp only [List.mem_map] at hp
    obtain ⟨q, hq, rfl⟩ := hp
    by_cases hqp : q.id = pid
    · exact ⟨q, hq, by simp [hqp], by simp [hqp]⟩
    · exact ⟨q, hq, by simp [hqp], by simp [hqp]⟩

lemma maybe_update_repo_contributions (st : Store) (pid : Nat) (repoId : Option Nat) :
    (maybe_update_repo st pid repoId).contributions = st.contributions := by
  cases repoId <;> rfl

lemma maybe_update_repo_next (st : Store) (pid : Nat) (repoId : Option Nat) :
    (maybe_update_repo st pid repoId).nextProposalId = st.nextProposalId := by
  cases repoId <;> rfl

lemma maybe_update_repo_count (st : Store) (pid : Nat) (repoId : Option Nat) (q : Nat) :
    get_contribution_count (maybe_update_repo st pid repoId) q =
      get_contribution_count st q := by
  cases repoId <;> rfl

/-- `update_proposal_confidence` membership: same ids, and the contributor
count is the written one on the targeted id and unchanged elsewhere. -/
lemma update_proposal_confidence_mem (st : Store) (pid : Nat) (conf : ℚ) (cnt : Nat)
    (p : ProposalRow) (hp : p ∈ (update_proposal_confidence st pid conf cnt).proposals) :
    ∃ q ∈ st.proposals, p.id = q.id ∧
      ((q.id = pid ∧ p.contributor_count = cnt) ∨
        (q.id ≠ pid ∧ p.contributor_count = q.contributor_count)) := by
  unfold update_proposal_confidence at hp
  simp only [List.mem_map] at hp
  obtain ⟨q, hq, rfl⟩ := hp
  by_cases hqp : q.id = pid
  · exact ⟨q, hq, by simp [hqp], Or.inl ⟨hqp, by simp [hqp]⟩⟩
  · exact ⟨q, hq, by simp [hqp], Or.inr ⟨hqp, by simp [hqp]⟩⟩

/-- The contribute-loop body preserves the induction invariant. -/
lemma contribStep_preserves (cc : ℚ → Nat → ℚ) (name : String) (repoId : Option Nat)
    (acc : Store × List ProposalRow) (rule : ContribRule)
    (h : contribFoldInv acc) : contribFoldInv (contribStep cc name repoId acc rule) := by
  obtain ⟨st, pending⟩ := acc
  obtain ⟨hcnt, ⟨hfp, hfc⟩, hpend⟩ := h
  dsimp only at hcnt hfp hfc hpend
  rcases hmatch : find_semantic_match rule.rule_text pending with ⟨bestOpt, score⟩
  unfold contribStep
  dsimp only
  rw [hmatch]
  rcases bestOpt with _ | best
  · -- create path: fresh proposal id `np`, one contribution by `name`
    dsimp only
    rw [show (create_proposal st rule.rule_text rule.category rule.confidence
      rule.source_excerpt name).1.id = st.nextProposalId from rfl]
    constructor
    · -- contributorCountInv
      intro p hp
      obtain ⟨q2, hq2, hid, hcount⟩ := maybe_update_repo_mem _ _ _ _ hp
      rw [maybe_update_repo_count]
      -- q2 lives in the post-create, post-contribution proposals
      have hq2' : q2 ∈ st.proposals ++ [(create_proposal st rule.rule_text rule.category
          rule.confidence rule.source_excerpt name).1] := hq2
      rw [List.mem_append] at hq2'
      rcases hq2' with hold | hnew
      · have hqlt : q2.id < st.nextProposalId := hfp q2 hold
        have hne : st.nextProposalId ≠ q2.id := by omega
        rw [hid, hcount]
        calc q2.contributor_count
            = get_contribution_count st q2.id := hcnt q2 hold
          _ = get_contribution_count
                (add_proposal_contribution (create_proposal st rule.rule_text rule.category
                  rule.confidence rule.source_excerpt name).2 st.nextProposalId name
                  rule.rule_text rule.confidence rule.source_excerpt 1).2 q2.id := by
              rw [get_contribution_count_add_ne _ _ _ _ _ _ _ _ hne]
              rfl
      · have hq2e : q2 = (create_proposal st rule.rule_text rule.category
            rule.confidence rule.source_excerpt name).1 := by simpa using hnew
        have hempty : ((create_proposal st rule.rule_text rule.category
            rule.confidence rule.source_excerpt name).2).contributions.filter
              (fun c => c.proposal_id == st.nextProposalId) = [] := by
          rw [List.filter_eq_nil_iff]
          intro c hc
          have := hfc c hc
          simp only [beq_iff_eq]
          omega
        rw [hid, hcount, hq2e,
          show (create_proposal st rule.rule_text rule.category rule.confidence
            rule.source_excerpt name).1.id = st.nextProposalId from rfl,
          get_contribution_count_add_self _ _ _ _ _ _ _ hempty]
        rfl
    constructor
    constructor
    · -- proposal ids below the bumped next id
      intro p hp
      obtain ⟨q2, hq2, hid, _⟩ := maybe_update_repo_mem _ _ _ _ hp
      rw [maybe_update_repo_next]
      have hq2' : q2 ∈ st.proposals ++ [(create_proposal st rule.rule_text rule.category
          rule.confidence rule.source_excerpt name).1] := hq2
      rw [List.mem_append] at hq2'
      rcases hq2' with hold | hnew
      · have := hfp q2 hold
        rw [hid]
        show q2.id < st.nextProposalId + 1
        omega
      · have hq2e : q2 = (create_proposal st rule.rule_text rule.category
            rule.confidence rule.source_excerpt name).1 := by simpa using hnew
        rw [hid, hq2e]
        show st.nextProposalId < st.nextProposalId + 1
        omega
    · -- contribution foreign keys below the bumped next id
      intro c hc
      rw [maybe_update_repo_contributions] at hc
      have hc' : c ∈ st.contributions ++ [⟨(create_proposal st rule.rule_text rule.category
          rule.confidence rule.source_excerpt name).2.nextContributionId,
          st.nextProposalId, name, rule.rule_text, rule.confidence,
          rule.source_excerpt, 1, (create_proposal st rule.rule_text rule.category
          rule.confidence rule.source_excerpt name).2.now⟩] := hc
      rw [List.mem_append] at hc'
      rw [maybe_update_repo_next]
      rcases hc' with hold | hnew
      · have := hfc c hold
        show c.proposal_id < st.nextProposalId + 1
        omega
      · have hce : c.proposal_id = st.nextProposalId := by
          have := List.mem_singleton.mp hnew
          rw [this]
        rw [hce]
        show st.nextProposalId < st.nextProposalId + 1
        omega
    · -- pending cache ids below the bumped next id
      intro p hp
      rw [List.mem_append] at hp
      rw [maybe_update_repo_next]
      rcases hp with hold | hnew
      · have := hpend p hold
        show p.id < st.nextProposalId + 1
        omega
      · have hpe : p = (create_proposal st rule.rule_text rule.category
            rule.confidence rule.source_excerpt name).1 := List.mem_singleton.mp hnew
        rw [hpe]
        show st.nextProposalId < st.nextProposalId + 1
        omega
  · -- merge path: contribution added to `best`, count recomputed and written
    dsimp only
    have hbest : best ∈ pending := find_semantic_match_mem _ _ _ _ hmatch
    have hbestlt : best.id < st.nextProposalId := hpend best hbest
    constructor
    · intro p hp
      obtain ⟨q2, hq2, hid, hcount⟩ := maybe_update_repo_mem _ _ _ _ hp
      rw [maybe_update_repo_count]
      obtain ⟨q, hq, hid2, hcases⟩ := update_proposal_confidence_mem _ _ _ _ _ hq2
      have hqmem : q ∈ st.proposals := hq
      rcases hcases with ⟨hqp, hcnt2⟩ | ⟨hqp, hcnt2⟩
      · -- the merged proposal: the freshly recomputed distinct count was written
        rw [hid, hid2, hqp, hcount, hcnt2]
        rfl
      · -- untouched proposals keep their counts
        rw [hid, hid2, hcount, hcnt2]
        have hne : best.id ≠ q.id := fun he => hqp he.symm
        calc q.contributor_count
            = get_contribution_count st q.id := hcnt q hqmem
          _ = get_contribution_count (add_proposal_contribution st best.id name
                rule.rule_text rule.confidence rule.source_excerpt score).2 q.id := by
              rw [get_contribution_count_add_ne _ _ _ _ _ _ _ _ hne]
    constructor
    constructor
    · intro p hp
      obtain ⟨q2, hq2, hid, _⟩ := maybe_update_repo_mem _ _ _ _ hp
      obtain ⟨q, hq, hid2, _⟩ := update_proposal_confidence_mem _ _ _ _ _ hq2
      rw [maybe_update_repo_next, hid, hid2]
      exact hfp q hq
    · intro c hc
      rw [maybe_update_repo_contributions] at hc
      have hc' : c ∈ st.contributions ++ [⟨st.nextContributionId, best.id, name,
          rule.rule_text, rule.confidence, rule.source_excerpt, score, st.now⟩] := hc
      rw [List.mem_append] at hc'
      rw [maybe_update_repo_next]
      rcases hc' with hold | hnew
      · exact hfc c hold
      · have hce : c.proposal_id = best.id := by
          have := List.mem_singleton.mp hnew
          rw [this]
        rw [hce]
        exact hbestlt
    · intro p hp
      rw [maybe_update_repo_next]
      exact hpend p hp

/-- The fold over the incoming rules preserves the invariant. -/
lemma contribFold_preserves (cc : ℚ → Nat → ℚ) (name : String) (repoId : Option Nat) :
    ∀ (rules : List ContribRule) (acc : Store × List ProposalRow),
      contribFoldInv acc →
      contribFoldInv (rules.foldl (contribStep cc name repoId) acc) := by
  intro rules
  induction rules with
  | nil => intro acc h; exact h
  | cons r rest ih =>
    intro acc h
    exact ih _ (contribStep_preserves cc name repoId acc r h)

/-- One contribute request preserves the count invariant and freshness. -/
lemma contribute_rules_preserves (cc : ℚ → Nat → ℚ) (st : Store)
    (body : ContributionPayload)
    (h1 : contributorCountInv st) (h2 : proposalIdsFresh st) :
    contributorCountInv (contribute_rules cc st body) ∧
      proposalIdsFresh (contribute_rules cc st body) := by
  have hpend : ∀ p ∈ find_similar_pending_proposals st, p.id < st.nextProposalId :=
    fun p hp => h2.1 p (find_similar_pending_mem st p hp)
  have hout := contribFold_preserves cc body.contributor_name (resolveHint st body.project_hint)
    body.rules (st, find_similar_pending_proposals st) ⟨h1, h2, hpend⟩
  exact ⟨hout.1, hout.2.1⟩

/-- C3: in every store reachable through the public contribute endpoint
(creating a proposal or merging a federated contribution), every Proposal's
`contributor_count` equals the number of distinct contributor identities among
its ProposalContributions — even when one identity contributes twice
(`get_contribution_count` is `COUNT(DISTINCT contributor_name)`). -/
theorem c3_contributor_count_invariant :
    ∀ (cc : ℚ → Nat → ℚ) (st : Store), ContribReach cc st → contributorCountInv st := by
  have hstrong : ∀ (cc : ℚ → Nat → ℚ) (st : Store), ContribReach cc st →
      contributorCountInv st ∧ proposalIdsFresh st := by
    intro cc st h
    induction h with
    | init =>
      refine ⟨?_, ?_, ?_⟩
      · intro p hp
        exact absurd hp (List.not_mem_nil p)
      · intro p hp
        exact absurd hp (List.not_mem_nil p)
      · intro c hc
        exact absurd hc (List.not_mem_nil c)
    | step st body _ ih =>
      exact ⟨(contribute_rules_preserves cc st body ih.1 ih.2).1,
             (contribute_rules_preserves cc st body ih.1 ih.2).2⟩
  exact fun cc st h => (hstrong cc st h).1

/-- C3 witness: the invariant holds of the store obtained by two contribute
requests from the empty store — one creating a proposal, the second (same
text, same contributor twice in one batch) merging into it. -/
theorem c3_contributor_count_invariant_witness :
    contributorCountInv
      (contribute_rules (fun c _ => c)
        (contribute_rules (fun c _ => c) emptyStore
          ⟨"alice", [⟨"Always use async/await for database operations",
            "architecture", mkRat 4 5, ""⟩], none⟩)
        ⟨"bob", [⟨"Use async/await for all database operations",
          "architecture", mkRat 17 20, ""⟩], none⟩) :=
  c3_contributor_count_invariant (fun c _ => c) _
    (ContribReach.step _ _ (ContribReach.step _ _ ContribReach.init))

/-! ### C6: the incremental extraction policy -/

/-- C6 counterexample: the incremental auto-approval of a 0.90-confidence rule
(the only candidate, no near-duplicate) writes an "auto_approved" trail entry
whose `source_ref` is the bare PR reference `pr:octo/hello#5` and whose
description cites only the PR number and the confidence — neither field
carries the event's provenance URL, which lives only on the rule row. -/
theorem c6_provenance_counterexample :
    ruleC6.provenance_url = "https://github.com/octo/hello/pull/5" ∧
    (incremental_extract "octo/hello" 5 [] [ruleC6] sampleStoreC6).2.1 = 1 ∧
    ∃ e ∈ (incremental_extract "octo/hello" 5 [] [ruleC6] sampleStoreC6).1.trail,
      e.event_type = "auto_approved" ∧ e.rule_id = ruleC6.id ∧
      e.source_ref = "pr:octo/hello#5" ∧
      hasSubStr e.source_ref ruleC6.provenance_url = false ∧
      hasSubStr e.description ruleC6.provenance_url = false := by
  decide

/-- C6 amended: every newly extracted candidate rule is handled exactly one
way — a near-duplicate (fallback similarity > 0.7 against a pre-existing rule)
is deleted; otherwise confidence ≥ 0.85 keeps the rule persisted and writes an
"auto_approved" trail entry whose `source_ref` is the PR reference
`pr:{repo}#{pr}` (not the event's provenance URL, which stays on the rule row)
and whose description cites the PR number and confidence; otherwise a Proposal
with proposer identity "webhook" is created and the bare rule deleted; the
returned summary carries the auto-approved / proposal counters and the total
candidate count. -/
theorem c6_incremental_policy_amended :
    ∀ (repo : String) (pr_number : Nat) (existing_rules : List RuleRow) (st : Store)
      (auto props : Nat) (r : RuleRow),
      (is_duplicate existing_rules r = true →
        incrStep repo pr_number existing_rules (st, auto, props) r =
          ((delete_rule st r.id).2, auto, props) ∧
        (∀ rr ∈ (incrStep repo pr_number existing_rules (st, auto, props) r).1.rules,
          rr.id ≠ r.id) ∧
        (incrStep repo pr_number existing_rules (st, auto, props) r).1.proposals =
          st.proposals) ∧
      (is_duplicate existing_rules r = false → mkRat 85 100 ≤ r.confidence →
        (r ∈ st.rules →
          r ∈ (incrStep repo pr_number existing_rules (st, auto, props) r).1.rules) ∧
        (∃ e ∈ (incrStep repo pr_number existing_rules (st, auto, props) r).1.trail,
          e.rule_id = r.id ∧ e.event_type = "auto_approved" ∧
          e.source_ref = prSourceRef repo pr_number ∧
          e.description = autoApprovedDesc pr_number r.confidence) ∧
        (incrStep repo pr_number existing_rules (st, auto, props) r).2 =
          (auto + 1, props) ∧
        (incrStep repo pr_number existing_rules (st, auto, props) r).1.proposals =
          st.proposals) ∧
      (is_duplicate existing_rules r = false → r.confidence < mkRat 85 100 →
        (∀ rr ∈ (incrStep repo pr_number existing_rules (st, auto, props) r).1.rules,
          rr.id ≠ r.id) ∧
        (∃ q ∈ (incrStep repo pr_number existing_rules (st, auto, props) r).1.proposals,
          q.rule_text = r.rule_text ∧ q.category = r.category ∧
          q.confidence = r.confidence ∧ q.proposed_by = "webhook" ∧
          q.status = "pending") ∧
        (incrStep repo pr_number existing_rules (st, auto, props) r).2 =
          (auto, props + 1)) ∧
      (∀ new_rules : List RuleRow,
        (incremental_extract repo pr_number existing_rules new_rules st).2.2.2 =
          new_rules.length) := by
  intro repo pr existing st auto props r
  refine ⟨?_, ?_, ?_, fun _ => rfl⟩
  · intro hdup
    have hstep : incrStep repo pr existing (st, auto, props) r =
        ((delete_rule st r.id).2, auto, props) := by
      unfold incrStep
      dsimp only
      rw [if_pos hdup]
    refine ⟨hstep, ?_, ?_⟩
    · intro rr hrr
      rw [hstep] at hrr
      have hm := List.mem_filter.mp hrr
      simpa using hm.2
    · rw [hstep]
      rfl
  · intro hdup hconf
    have hstep : incrStep repo pr existing (st, auto, props) r =
        ((add_trail_entry st r.id "auto_approved" (autoApprovedDesc pr r.confidence)
          (prSourceRef repo pr)).2, auto + 1, props) := by
      unfold incrStep
      dsimp only
      rw [if_neg (by simp [hdup]), if_pos hconf]
    rw [hstep]
    refine ⟨fun hr => hr,
      ⟨⟨st.nextTrailId, r.id, "auto_approved", autoApprovedDesc pr r.confidence,
        prSourceRef repo pr, st.now⟩, ?_, rfl, rfl, rfl, rfl⟩, rfl, rfl⟩
    exact List.mem_append_right _ (List.mem_singleton.mpr rfl)
  · intro hdup hconf
    have hstep : incrStep repo pr existing (st, auto, props) r =
        ((delete_rule (create_proposal st r.rule_text r.category r.confidence
          ("Incrementally extracted from merged PR #" ++ toString pr) "webhook").2
          r.id).2, auto, props + 1) := by
      unfold incrStep
      dsimp only
      rw [if_neg (by simp [hdup]), if_neg (by simpa using hconf)]
    rw [hstep]
    refine ⟨?_, ⟨⟨st.nextProposalId, r.rule_text, r.category, r.confidence,
        "Incrementally extracted from merged PR #" ++ toString pr, "webhook",
        "pending", "", "", 1, none, st.now⟩, ?_, rfl, rfl, rfl, rfl, rfl⟩, rfl⟩
    · intro rr hrr
      have hm := List.mem_filter.mp hrr
      simpa using hm.2
    · exact List.mem_append_right _ (List.mem_singleton.mpr rfl)

/-- C6 witness: the three policy clauses applied concretely — the 0.90 rule of
the counterexample store is not a duplicate of the empty pre-existing list,
stays persisted, and bumps the auto-approved counter. -/
theorem c6_incremental_policy_amended_witness :
    (ruleC6 ∈ sampleStoreC6.rules →
      ruleC6 ∈ (incrStep "octo/hello" 5 [] (sampleStoreC6, 0, 0) ruleC6).1.rules) ∧
    (∃ e ∈ (incrStep "octo/hello" 5 [] (sampleStoreC6, 0, 0) ruleC6).1.trail,
      e.rule_id = ruleC6.id ∧ e.event_type = "auto_approved" ∧
      e.source_ref = prSourceRef "octo/hello" 5 ∧
      e.description = autoApprovedDesc 5 ruleC6.confidence) ∧
    (incrStep "octo/hello" 5 [] (sampleStoreC6, 0, 0) ruleC6).2 = (0 + 1, 0) ∧
    (incrStep "octo/hello" 5 [] (sampleStoreC6, 0, 0) ruleC6).1.proposals =
      sampleStoreC6.proposals :=
  (c6_incremental_policy_amended "octo/hello" 5 [] sampleStoreC6 0 0 ruleC6).2.1
    (by decide) (by decide)

/-! ### C8: path-scoped output files of the modular emitter -/

/-- C8: the fallback modular emitter routes the path-scoped rule
`src/api/*.py` (confidence 0.8 ≥ 0.6) to `.claude/rules/api/style.md`, but the
emitted file's metadata header carries only a `description:` line — no file of
the output declares the rule's path globs, contradicting the claim (and the
code's own dangling "Check if any rules in this file have path scoping"
comment and its agent-path instruction to attach a `paths:` field). -/
theorem c8_path_globs_missing :
    ruleC8.applicable_paths = "src/api/*.py" ∧
    mkRat 6 10 ≤ ruleC8.confidence ∧
    modularFileKey ruleC8 = ".claude/rules/api/style.md" ∧
    build_modular_rules_fallback sampleStoreC8 1 =
      [(".claude/CLAUDE.md",
        "# CLAUDE.md\n\nSee `.claude/rules/` for detailed conventions.\n"),
       (".claude/rules/api/style.md",
        "---\ndescription: Style conventions\n---\n\n- Use dependency injection for services\n")] ∧
    (∀ kv ∈ build_modular_rules_fallback sampleStoreC8 1,
      hasSubStr kv.2 "src/api" = false ∧ hasSubStr kv.2 "paths" = false) := by
  decide

end Tacit
